import Mathlib

/-!
Verification of the ZarcFit numerical engine: a shallow embedding of the
circuit-impedance evaluator (`ModelCircuits.py`), the nonlinear fit engine
(`FitBuilder.py`), the time-domain transform (`TimeDomainBuilder.py`) and the
calculation orchestrator (`Calculator.py`), together with theorems settling
the specification claims about them.

Python floats are modelled as real numbers, complex numpy values as `ℂ`,
Python dicts as association lists (`Params`), raised `ValueError` exceptions
as the `Except String` monad, and numpy arrays as lists.
-/

noncomputable section

open scoped Classical

/-! ## Dictionaries (Python `dict` with string keys and float values) -/

/-- A Python dict mapping parameter names to float values, embedded as an
association list in insertion order. -/
abbrev Params := List (String × ℝ)

/-- Dict lookup `p[k]` (the value of the unique binding of `k`, here the
first binding). Returns `none` where Python would raise `KeyError`. -/
def findVal : Params → String → Option ℝ
  | [], _ => none
  | (k₁, v) :: rest, k => if k₁ = k then some v else findVal rest k

/-- Python dict merge `\x7b**a, **b\x7d`: bindings of `b` take priority over
bindings of `a`.  Embedded lookup-equivalently by prepending `b`. -/
def dict_union (a b : Params) : Params := b ++ a

/-- Python dict assignment `p[k] = v`: replace the binding of `k` if present,
otherwise append a fresh binding. -/
def dict_set (p : Params) (k : String) (v : ℝ) : Params :=
  if (findVal p k).isSome then
    p.map (fun kv => if kv.1 = k then (k, v) else kv)
  else
    p ++ [(k, v)]

lemma findVal_append_of_some {a : Params} {k : String} {v : ℝ}
    (b : Params) (h : findVal a k = some v) :
    findVal (a ++ b) k = some v := by
  induction a with
  | nil => simp [findVal] at h
  | cons kv rest ih =>
      obtain ⟨k₁, w⟩ := kv
      by_cases hk : k₁ = k
      · simp [findVal, hk] at h ⊢; exact h
      · simp [findVal, hk] at h ⊢; exact ih h

lemma findVal_append_of_none {a : Params} {k : String}
    (b : Params) (h : findVal a k = none) :
    findVal (a ++ b) k = findVal b k := by
  induction a with
  | nil => simp
  | cons kv rest ih =>
      obtain ⟨k₁, w⟩ := kv
      by_cases hk : k₁ = k
      · simp [findVal, hk] at h
      · simp [findVal, hk] at h ⊢; exact ih h

lemma findVal_eq_none_of_keys {p : Params} {k : String}
    (h : ∀ kv ∈ p, kv.1 ≠ k) : findVal p k = none := by
  induction p with
  | nil => rfl
  | cons kv rest ih =>
      obtain ⟨k₁, w⟩ := kv
      have hk : k₁ ≠ k := h (k₁, w) (by simp)
      simp only [findVal, if_neg hk]
      exact ih (fun kv hkv => h kv (by simp [hkv]))

/-- Lookup after a pointwise key update (the mapped form of `dict_set` on a
dict that contains the key). -/
lemma findVal_update (p : Params) (t : String) (v : ℝ) (k : String) :
    findVal (p.map (fun kv => if kv.1 = t then (t, v) else kv)) k =
      if k = t then (findVal p t).map (fun _ => v) else findVal p k := by
  induction p with
  | nil => by_cases hk : k = t <;> simp [findVal, hk]
  | cons kv rest ih =>
      obtain ⟨k₁, w⟩ := kv
      by_cases h₁ : k₁ = t
      · subst h₁
        have hd : (if ((k₁, w) : String × ℝ).1 = k₁ then (k₁, v) else (k₁, w)) = (k₁, v) := by
          simp
        rw [List.map_cons, hd]
        by_cases hk : k = k₁
        · subst hk; simp [findVal, ih]
        · have hk₂ : ¬k₁ = k := fun h => hk h.symm
          simp [findVal, hk, hk₂, ih]
      · have hd : (if ((k₁, w) : String × ℝ).1 = t then (t, v) else (k₁, w)) = (k₁, w) := by
          simp [h₁]
        rw [List.map_cons, hd]
        by_cases h₂ : k₁ = k
        · subst h₂
          simp [findVal, h₁]
        · simp [findVal, h₂, h₁, ih]

lemma dict_set_findVal_self {p : Params} {t : String} {w : ℝ}
    (v : ℝ) (h : findVal p t = some w) :
    findVal (dict_set p t v) t = some v := by
  unfold dict_set
  rw [h]
  simp [findVal_update, h]

lemma dict_set_findVal_other {p : Params} {t k : String} (v : ℝ)
    (hk : k ≠ t) : findVal (dict_set p t v) k = findVal p k := by
  unfold dict_set
  by_cases h : (findVal p t).isSome
  · simp [h, findVal_update, hk]
  · simp only [h, if_false, Bool.false_eq_true]
    cases hfk : findVal p k with
    | some w => exact findVal_append_of_some _ hfk
    | none =>
        rw [findVal_append_of_none _ hfk]
        simp only [findVal]
        rw [if_neg (fun h : t = k => hk h.symm)]

/-! ## FitBuilder: parameter scaling (`_scale_params`, `_descale_params`) -/

/-- `FitBuilder._scale_params`: the loop over `keys` appends, per key,
`value * 10` for a phase-type key (name starting with "P") and
`log10 value` for a magnitude-type key, which must be strictly positive
(`ValueError` otherwise).  A missing key is Python `KeyError`; errors abort
the loop left to right as raised exceptions do. -/
def scale_params : List String → Params → Except String (List ℝ)
  | [], _ => .ok []
  | key :: keys, params =>
    match findVal params key with
    | none => .error "KeyError"
    | some value =>
        if key.startsWith "P" then do
          let rest ← scale_params keys params
          pure (value * 10 :: rest)
        else if value ≤ 0 then
          .error "ValueError: parameter must be positive"
        else do
          let rest ← scale_params keys params
          pure (Real.logb 10 value :: rest)

/-- `FitBuilder._descale_params`: phase-type keys are divided by 10,
magnitude-type keys are mapped through `10 ** x`. -/
def descale_params (keys : List String) (x : List ℝ) : Params :=
  (keys.zip x).map (fun kv =>
    (kv.1, if kv.1.startsWith "P" then kv.2 / 10 else (10 : ℝ) ^ kv.2))

/-- Python float modulus `a % b` (for the fit engine only used with `b = 4`):
`a - b * ⌊a / b⌋`. -/
def py_mod (a b : ℝ) : ℝ := a - b * ⌊a / b⌋

/-- The post-fit normalization of the angle-like key:
`best_fit["Pei"] = (best_fit["Pei"] + 1) % 4. - 1`. -/
def pei_wrap (x : ℝ) : ℝ := py_mod (x + 1) 4 - 1

lemma pei_wrap_mem (x : ℝ) : -1 ≤ pei_wrap x ∧ pei_wrap x < 3 := by
  have hfr : py_mod (x + 1) 4 = 4 * Int.fract ((x + 1) / 4) := by
    unfold py_mod Int.fract
    ring
  constructor
  · have h0 : (0 : ℝ) ≤ Int.fract ((x + 1) / 4) := Int.fract_nonneg _
    unfold pei_wrap
    rw [hfr]
    nlinarith
  · have h1 : Int.fract ((x + 1) / 4) < 1 := Int.fract_lt_one _
    unfold pei_wrap
    rw [hfr]
    nlinarith

/-! ## FitBuilder: `fit_model` post-processing

`opt.least_squares` is an external numerical solver; it is modelled as an
oracle whose returned vector `result_x` (the solver field `result.x`) is
universally quantified.  `best_fit_merged` is the merged dictionary
`\x7b**locked_params, **best_fit_free\x7d` built by `fit_model` from the
solver output (FitBuilder.py lines 87-118), and `fit_model` adds the final
Pei normalization step (lines 120-121). -/

def best_fit_merged (disabled_variables : List String) (initial_params : Params)
    (result_x : List ℝ) : Params :=
  let all_keys := initial_params.map Prod.fst
  let free_keys := all_keys.filter (fun k => !(disabled_variables.contains k))
  let locked_params : Params :=
    disabled_variables.filterMap
      (fun k => (findVal initial_params k).map (fun v => (k, v)))
  let best_fit_free := descale_params free_keys result_x
  dict_union locked_params best_fit_free

def fit_model (disabled_variables : List String) (initial_params : Params)
    (result_x : List ℝ) : Params :=
  let best_fit := best_fit_merged disabled_variables initial_params result_x
  if (findVal best_fit "Pei").isSome then
    dict_set best_fit "Pei" (pei_wrap ((findVal best_fit "Pei").getD 0))
  else
    best_fit

/-! ## FitBuilder: penalties and the residual wrapper -/

/-- `FitBuilder._invalid_guess`: positive deviations from the validity
criteria `Fh >= Fm >= Fl`.  `none` models the Python `KeyError` raised when a
key is absent from the trial parameter dict. -/
def invalid_guess (params : Params) : Option (List ℝ) := do
  let fm ← findVal params "Fm"
  let fh ← findVal params "Fh"
  let fl ← findVal params "Fl"
  pure [max 0 (fm - fh), max 0 (fl - fm)]

/-- `FitBuilder._compute_invalid_guess_penalty`: the deviation vector scaled
elementwise by `arbitrary_scaling = 1e4` and the prior weight. -/
def compute_invalid_guess_penalty (params : Params) (prior_weight : ℝ) :
    Option (List ℝ) :=
  (invalid_guess params).map (fun deviation =>
    deviation.map (fun d => d * 10000 * prior_weight))

/-- `FitBuilder._compute_gaussian_prior` (with the default
`gaussian_fraction = 5` inlined): elementwise
`prior_weight * (x_guess - x0) / sigmas` with
`sigmas = (upper_bounds - lower_bounds) * 5`. -/
def compute_gaussian_prior (x_guess x0 lower_bounds upper_bounds : List ℝ)
    (prior_weight : ℝ) : List ℝ :=
  let sigmas := List.zipWith (fun u l => (u - l) * 5) upper_bounds lower_bounds
  List.zipWith (fun d s => prior_weight * (d / s))
    (List.zipWith (fun a b => a - b) x_guess x0) sigmas

/-- `FitBuilder.fit_model._residual_wrapper`: descale the free vector, merge
with the locked parameters, evaluate the residual function; a `ValueError`
raised by the model evaluation (the only exception type the `try` block of
lines 97-101 catches) is converted into the constant penalty vector
`np.ones(10000) * 1e6`.  With the Gaussian prior enabled the prior residual
and the invalid-guess penalty are appended (`none` from the penalty lookup,
i.e. Python `KeyError`, is not caught and propagates). -/
def residual_wrapper (residual_func : Params → Except String (List ℝ))
    (gaussian_prior : Bool) (locked_params : Params) (free_keys : List String)
    (x0 lower_bounds_scaled upper_bounds_scaled : List ℝ) (prior_weight : ℝ)
    (x_free : List ℝ) : Except String (List ℝ) :=
  let free_params := descale_params free_keys x_free
  let full_params := dict_union locked_params free_params
  match residual_func full_params with
  | .error _ => .ok (List.replicate 10000 1000000)
  | .ok model_residual =>
      if gaussian_prior then
        match compute_invalid_guess_penalty full_params prior_weight with
        | none => .error "KeyError"
        | some invalid_penalty =>
            .ok (model_residual ++
              compute_gaussian_prior x_free x0 lower_bounds_scaled
                upper_bounds_scaled prior_weight ++ invalid_penalty)
      else
        .ok model_residual

/-! ## ModelCircuits: primitives

`ModelCircuitParent._inductor`, `_q_from_f0`, `_cpe`, `_parallel` and
`_parallel_arrays`.  Raised `ValueError` exceptions are the `.error` branch;
float/complex arithmetic is real/complex arithmetic. -/

def inductor (freq linf : ℝ) : Except String ℂ :=
  if linf = 0 then .error "Inductance (linf) cannot be zero."
  else if freq < 0 then .error "Frequency cannot be negative."
  else .ok (((2 * Real.pi * freq) * linf : ℝ) * Complex.I)

def q_from_f0 (r f0 p : ℝ) : Except String ℝ :=
  if r = 0 then .error "Resistance r cannot be zero."
  else if f0 ≤ 0 then .error "Resonant frequency f0 must be positive."
  else .ok (1 / (r * (2 * Real.pi * f0) ^ p))

def cpe (freq q pf pi : ℝ) : Except String ℂ :=
  if q = 0 then .error "Parameter q cannot be zero."
  else if freq < 0 then .error "Frequency must be non-negative for CPE model."
  else if freq = 0 ∧ 0 < pf then .error "freq=0 and pf>0 results in division by zero in CPE."
  else if freq = 0 ∧ pf < 0 then .error "freq=0 and pf<0 is undefined (0 to a negative power)."
  else .ok (1 / ((q : ℂ) * Complex.I ^ (pi : ℂ) * (((2 * Real.pi * freq) ^ pf : ℝ) : ℂ)))

def parallel (z_1 z_2 : ℂ) : Except String ℂ :=
  if z_1 = 0 ∨ z_2 = 0 then
    .error "Cannot take parallel of impedance 0 (=> infinite admittance)."
  else .ok (1 / (1 / z_1 + 1 / z_2))

def parallel_arrays (z_1 z_2 : List ℂ) : Except String (List ℂ) :=
  if z_1.any (fun z => decide (z = 0)) ∨ z_2.any (fun z => decide (z = 0)) then
    .error "Cannot take parallel of impedance 0 (=> infinite admittance)."
  else .ok (List.zipWith (fun a b => 1 / (1 / a + 1 / b)) z_1 z_2)

/-! ## ModelCircuits: parameter sets, secondary parameters and circuit state -/

/-- The fixed parameter vocabulary read by the circuit models
(a `ParameterSet` restricted to the keys the models access). -/
structure CircuitParams where
  Rinf : ℝ
  Rh : ℝ
  Rm : ℝ
  Rl : ℝ
  Linf : ℝ
  Re : ℝ
  Ph : ℝ
  Pm : ℝ
  Pl : ℝ
  Fh : ℝ
  Fm : ℝ
  Fl : ℝ
  Pef : ℝ
  Pei : ℝ
  Qe : ℝ

/-- The mutable attribute `self.q` of `ModelCircuitParent`. -/
structure QState where
  Qh : ℝ
  Qm : ℝ
  Ql : ℝ

/-- The mutable attribute `self.par_second`. -/
structure ParSecond where
  R0 : ℝ
  pRh : ℝ
  pQh : ℝ
  pRm : ℝ
  pQm : ℝ
  pRl : ℝ
  pQl : ℝ

/-- The mutable attribute `self.par_other_sec`. -/
structure ParOtherSec where
  Ch : ℝ
  pCh : ℝ
  Cm : ℝ
  pCm : ℝ
  Cl : ℝ
  pCl : ℝ

/-- The three mutable dicts of a model circuit object, threaded explicitly. -/
structure CircuitState where
  q : QState
  par_second : ParSecond
  par_other_sec : ParOtherSec

/-- The in-place sign flip `par["Rinf"] = -par["Rinf"]` applied when the
`negative_rinf` flag is set. -/
def neg_rinf (p : CircuitParams) : CircuitParams := { p with Rinf := -p.Rinf }

/-- `ModelCircuitParent._calculate_secondary_parameters` (lines 79-109).
Python float division by zero would raise `ZeroDivisionError`; Lean real
division is total (`x / 0 = 0`), which no claim depends on.  The three
`_q_from_f0` calls happen before any state is written, so an error leaves
the state unchanged, as in the source. -/
def calculate_secondary_parameters (par : CircuitParams) :
    Except String CircuitState := do
  let Qh ← q_from_f0 par.Rh par.Fh par.Ph
  let Qm ← q_from_f0 par.Rm par.Fm par.Pm
  let Ql ← q_from_f0 par.Rl par.Fl par.Pl
  let R0 := par.Rinf + par.Rh + par.Rm + par.Rl
  let pRh := par.Rinf * (par.Rinf + par.Rh) / par.Rh
  let pQh := Qh * (par.Rh / (par.Rinf + par.Rh)) ^ (2 : ℕ)
  let pRm := (par.Rinf + par.Rh) * (par.Rinf + par.Rh + par.Rm) / par.Rm
  let pQm := Qm * (par.Rm / (par.Rinf + par.Rh + par.Rm)) ^ (2 : ℕ)
  let pRl := (par.Rinf + par.Rh + par.Rm) * (par.Rinf + par.Rh + par.Rm + par.Rl) / par.Rl
  let pQl := Ql * (par.Rl / (par.Rinf + par.Rh + par.Rm + par.Rl)) ^ (2 : ℕ)
  let Ch := 1 / (2 * Real.pi * par.Fh * par.Rh)
  let pCh := Ch * (par.Rh / (par.Rinf + par.Rh)) ^ (2 : ℕ)
  let Cm := 1 / (2 * Real.pi * par.Fm * par.Rm)
  let pCm := Cm * (par.Rm / (par.Rinf + par.Rh + par.Rm)) ^ (2 : ℕ)
  let Cl := 1 / (2 * Real.pi * par.Fl * par.Rl)
  let pCl := Cl * (par.Rl / (par.Rinf + par.Rh + par.Rm + par.Rl)) ^ (2 : ℕ)
  pure ⟨⟨Qh, Qm, Ql⟩, ⟨R0, pRh, pQh, pRm, pQm, pRl, pQl⟩, ⟨Ch, pCh, Cm, pCm, Cl, pCl⟩⟩

/-! ## ModelCircuits: series and parallel topologies

`run_rock` and `run_model` of `ModelCircuitSeries` and
`ModelCircuitParallel`.  Each takes the `negative_rinf` flag and the mutable
circuit state explicitly and returns the impedance array (or arrays)
together with the updated state.  List comprehensions over the frequency
array become `List.mapM` (left-to-right, first raised error wins, as in the
Python loops). -/

/-- `ModelCircuitSeries.run_rock` (lines 186-205). -/
def run_rock_series (negative_rinf : Bool) (st : CircuitState)
    (parameters : CircuitParams) (freq_array : List ℝ) (old_par_second : Bool) :
    Except String (List ℂ × CircuitState) := do
  let par := if negative_rinf then neg_rinf parameters else parameters
  let st ← if old_par_second then pure st else calculate_secondary_parameters par
  let z ← freq_array.mapM (fun freq => do
    let z_cpem ← cpe freq st.q.Qm par.Pm par.Pm
    let zarcm ← parallel z_cpem (par.Rm : ℂ)
    let z_cpel ← cpe freq st.q.Ql par.Pl par.Pl
    let zarcl ← parallel z_cpel (par.Rl : ℂ)
    pure (zarcm + zarcl))
  pure (z, st)

/-- `ModelCircuitSeries.run_model` (lines 207-224): returns the pair of the
total impedance array and the rock impedance array, with the updated state. -/
def run_model_series (negative_rinf : Bool) (st : CircuitState)
    (parameters : CircuitParams) (freq_array : List ℝ) (old_par_second : Bool) :
    Except String (List ℂ × List ℂ × CircuitState) := do
  let par := if negative_rinf then neg_rinf parameters else parameters
  let st ← if old_par_second then pure st else calculate_secondary_parameters par
  let (z_rock, st) ← run_rock_series negative_rinf st par freq_array true
  let zinf ← freq_array.mapM (fun freq => do
    let zl ← inductor freq par.Linf
    pure (zl + (par.Rinf : ℂ)))
  let z_cpeh ← freq_array.mapM (fun freq => cpe freq st.q.Qh par.Ph par.Ph)
  let zarch ← z_cpeh.mapM (fun zc => parallel zc (par.Rh : ℂ))
  let z_cpee ← freq_array.mapM (fun freq => cpe freq par.Qe par.Pef par.Pei)
  let zarce ← z_cpee.mapM (fun zc => parallel zc (par.Re : ℂ))
  let total := List.zipWith (fun a b => a + b)
    (List.zipWith (fun a b => a + b)
      (List.zipWith (fun a b => a + b) zinf zarch) z_rock) zarce
  pure (total, z_rock, st)

/-- `ModelCircuitParallel.run_rock` (lines 235-258). -/
def run_rock_parallel (negative_rinf : Bool) (st : CircuitState)
    (parameters : CircuitParams) (freq_array : List ℝ) (old_par_second : Bool) :
    Except String (List ℂ × CircuitState) := do
  let par := if negative_rinf then neg_rinf parameters else parameters
  let st ← if old_par_second then pure st else calculate_secondary_parameters par
  let par2 := st.par_second
  let z ← freq_array.mapM (fun f => do
    let zcm ← cpe f par2.pQm par.Pm par.Pm
    let z_line_m := (par2.pRm : ℂ) + zcm
    let zcl ← cpe f par2.pQl par.Pl par.Pl
    let z_line_l := (par2.pRl : ℂ) + zcl
    let z_lines ← parallel z_line_m z_line_l
    let z_rock ← parallel z_lines (par2.R0 : ℂ)
    pure z_rock)
  pure (z, st)

/-- `ModelCircuitParallel.run_model` (lines 260-281).  In the source
`par2 = self.par_second` aliases the dict that
`_calculate_secondary_parameters` mutates in place, so every read of `par2`
sees the freshly derived values; here that aliasing is the explicit use of
the updated state. -/
def run_model_parallel (negative_rinf : Bool) (st : CircuitState)
    (parameters : CircuitParams) (freq_array : List ℝ) (old_par_second : Bool) :
    Except String (List ℂ × List ℂ × CircuitState) := do
  let par := if negative_rinf then neg_rinf parameters else parameters
  let st ← if old_par_second then pure st else calculate_secondary_parameters par
  let (z_rock, st) ← run_rock_parallel negative_rinf st par freq_array true
  let z_line_h ← freq_array.mapM (fun f => do
    let zc ← cpe f st.par_second.pQh par.Ph par.Ph
    pure ((st.par_second.pRh : ℂ) + zc))
  let z_rock_line_h ← parallel_arrays z_line_h z_rock
  let zinf ← freq_array.mapM (fun f => inductor f par.Linf)
  let z_cpee ← freq_array.mapM (fun f => cpe f par.Qe par.Pef par.Pei)
  let zarce ← z_cpee.mapM (fun zc => parallel zc (par.Re : ℂ))
  let z_circuit := List.zipWith (fun a b => a + b)
    (List.zipWith (fun a b => a + b) zinf z_rock_line_h) zarce
  pure (z_circuit, z_rock, st)

/-! ## TimeDomainBuilder -/

/-- `np.cumsum`: entry `k` is the sum of the first `k + 1` elements. -/
def np_cumsum (l : List ℝ) : List ℝ :=
  (List.range l.length).map (fun k => (l.take (k + 1)).sum)

/-- `np.searchsorted(a, v, side="right")` on a sorted array: the number of
elements that are `≤ v`. -/
def searchsorted_right (l : List ℝ) (v : ℝ) : ℕ :=
  l.countP (fun x => decide (x ≤ v))

/-- `TimeDomainBuilder._fourier_transform_pulse` (lines 174-191) after the
two numerical library transforms: `np.fft.irfft` and the zero-phase
Butterworth filter `sig.filtfilt` are external numerics whose output, the
filtered impulse sequence `z_inversefft`, is taken as the input here.  The
function builds the time axis `t = index * dt`, the rising response
`volt_up = [0] ++ cumsum(z_inversefft)[:-1]`, and the falling response
`volt_down = volt_up[searchsorted(t, 2, side="right")] - volt_up`
(`getD _ 0` stands for the numpy indexing that raises `IndexError` out of
range, a case the theorems exclude by hypothesis).  Returns
`(t, volt_down, volt_up)`. -/
def fourier_transform_pulse (z_inversefft : List ℝ) (dt : ℝ) :
    List ℝ × List ℝ × List ℝ :=
  let t := (List.range z_inversefft.length).map (fun i : ℕ => (i : ℝ) * dt)
  let volt_up := 0 :: (np_cumsum z_inversefft).dropLast
  let time_to_plot_in_seconds : ℝ := 2
  let index := searchsorted_right t time_to_plot_in_seconds
  let volt_down := volt_up.map (fun x => volt_up.getD index 0 - x)
  (t, volt_down, volt_up)

/-- `np.linspace(start, stop, num)`. -/
def linspace (start stop : ℝ) (num : ℕ) : List ℝ :=
  (List.range num).map (fun i : ℕ => start + (i : ℝ) * ((stop - start) / ((num : ℝ) - 1)))

/-- `TimeDomainBuilder.N = 2 ** 14`. -/
def time_domain_N : ℕ := 2 ^ 14

/-- `TimeDomainBuilder.T = 4`. -/
def time_domain_T : ℝ := 4

/-- The one-sided frequency grid built by `run_time_domain` (lines 44-52):
`n_freq + 1` evenly spaced points from 0 to `n_freq * df` with the
zero-frequency bin then replaced by the floor value 0.001. -/
def freq_even_time_domain : List ℝ :=
  let n_freq : ℕ := time_domain_N / 2
  let df : ℝ := 1 / time_domain_T
  (linspace 0 ((n_freq : ℝ) * df) (n_freq + 1)).set 0 (1 / 1000)

/-- Lines 54-55 of `run_time_domain`: evaluate the rock impedance of the
model circuit (an oracle argument here) on the grid and force the f = 0 bin
real: `z_complex[0] = z_complex[0].real`.  An empty result would be a numpy
`IndexError`. -/
def run_time_domain_z (run_rock : List ℝ → Except String (List ℂ)) :
    Except String (List ℂ) := do
  let z_complex ← run_rock freq_even_time_domain
  match z_complex with
  | [] => .error "IndexError"
  | z0 :: rest => pure (((z0.re : ℝ) : ℂ) :: rest)

/-! ## Calculator -/

/-- `Calculator._calculate_special_frequencies` (lines 236-258).  The
injected model circuit is abstracted as the oracle `run_model` with the
source call shape `run_model(params, freqs, old_par_second=True) = (z, z_rock)`.
Returns `(special_freq, spec_zr, spec_zi, R01)` where `R01` is the value
stored into `self._calculator_variables`.  An empty first impedance array
would make `fsf_z.real[0]` raise `IndexError`. -/
def calculate_special_frequencies
    (run_model : CircuitParams → List ℝ → Bool → Except String (List ℂ × List ℂ))
    (params : CircuitParams) :
    Except String (List ℝ × List ℝ × List ℝ × ℝ) := do
  let params_no_electrode := { params with Re := 100000000, Qe := 100 }
  let fixed_special_frequencies : List ℝ := [1 / 10]
  let dynamic_special_freq : List ℝ := [params.Fh, params.Fm, params.Fl]
  let fsf ← run_model params_no_electrode fixed_special_frequencies true
  let dsf ← run_model params dynamic_special_freq true
  let fsf_z := fsf.1
  let dsf_z := dsf.1
  match fsf_z with
  | [] => .error "IndexError"
  | z0 :: rest =>
      let r01 := z0.re
      pure (dynamic_special_freq ++ fixed_special_frequencies,
            dsf_z.map Complex.re ++ (z0 :: rest).map Complex.re,
            dsf_z.map Complex.im ++ List.replicate (z0 :: rest).length 0,
            r01)

/-! ## Claims -/

/-- Claim C4: each impedance primitive raises a domain error exactly under
its stated invalid inputs and returns a value otherwise: the inductor raises
iff `L = 0` or `f < 0`; the CPE raises iff `Q = 0`, or `f < 0`, or `f = 0`
with `Pf > 0`, or `f = 0` with `Pf < 0` (so `f = 0` with `Pf = 0` does not
raise); Q-from-resonant-frequency raises iff `R = 0` or `F0 ≤ 0`.  In the
real/complex model every returned value is finite. -/
theorem primitive_domain_checks :
    (∀ freq linf : ℝ, (∃ e, inductor freq linf = .error e) ↔ linf = 0 ∨ freq < 0)
    ∧ (∀ freq q pf pi : ℝ, (∃ e, cpe freq q pf pi = .error e) ↔
        q = 0 ∨ freq < 0 ∨ (freq = 0 ∧ 0 < pf) ∨ (freq = 0 ∧ pf < 0))
    ∧ (∀ r f0 p : ℝ, (∃ e, q_from_f0 r f0 p = .error e) ↔ r = 0 ∨ f0 ≤ 0) := by
  refine ⟨?_, ?_, ?_⟩
  · intro freq linf
    unfold inductor
    split_ifs <;> simp_all
  · intro freq q pf pi
    unfold cpe
    split_ifs <;> simp_all
  · intro r f0 p
    unfold q_from_f0
    split_ifs <;> simp_all

/-- Witness for C4: concrete invalid inputs for each primitive. -/
theorem primitive_domain_checks_witness :
    (∃ e, inductor (-1) 1 = .error e) ∧ (∃ e, cpe 0 1 1 1 = .error e)
    ∧ (∃ e, q_from_f0 0 1 1 = .error e) :=
  ⟨(primitive_domain_checks.1 (-1) 1).mpr (Or.inr (by norm_num)),
   (primitive_domain_checks.2.1 0 1 1 1).mpr (Or.inr (Or.inr (Or.inl ⟨rfl, by norm_num⟩))),
   (primitive_domain_checks.2.2 0 1 1).mpr (Or.inl rfl)⟩

/-- Claim C2: if the residual function raises a `ValueError` at the trial
point, the objective wrapper returns the constant penalty vector
`np.ones(10000) * 1e6` instead of propagating the exception, for every trial
vector and every configuration of the wrapper. -/
theorem residual_wrapper_catches (residual_func : Params → Except String (List ℝ))
    (gaussian_prior : Bool) (locked_params : Params) (free_keys : List String)
    (x0 lower_bounds_scaled upper_bounds_scaled : List ℝ) (prior_weight : ℝ)
    (x_free : List ℝ) (e : String)
    (h : residual_func (dict_union locked_params (descale_params free_keys x_free))
          = .error e) :
    residual_wrapper residual_func gaussian_prior locked_params free_keys x0
      lower_bounds_scaled upper_bounds_scaled prior_weight x_free
      = .ok (List.replicate 10000 1000000) := by
  simp only [residual_wrapper, h]

/-- Witness for C2: a residual function that always raises. -/
theorem residual_wrapper_catches_witness :
    (fun _ : Params => (Except.error "ValueError" : Except String (List ℝ)))
        (dict_union [] (descale_params [] [])) = Except.error "ValueError"
    ∧ residual_wrapper (fun _ => .error "ValueError") true [] [] [] [] [] 0 []
        = .ok (List.replicate 10000 1000000) :=
  ⟨rfl, residual_wrapper_catches _ true [] [] [] [] [] 0 [] "ValueError" rfl⟩

/-- Claim C8: for both topologies, `run_model` and `run_rock` with the
negative-Rinf flag set coincide with the same call with the flag clear on
the parameter set whose `Rinf` is replaced by `-Rinf`: the sign inversion
happens before all other computation, including the secondary-parameter
derivation. -/
theorem run_model_negative_rinf (st : CircuitState) (p : CircuitParams)
    (freq_array : List ℝ) (old_par_second : Bool) :
    run_rock_series true st p freq_array old_par_second
        = run_rock_series false st (neg_rinf p) freq_array old_par_second
    ∧ run_model_series true st p freq_array old_par_second
        = run_model_series false st (neg_rinf p) freq_array old_par_second
    ∧ run_rock_parallel true st p freq_array old_par_second
        = run_rock_parallel false st (neg_rinf p) freq_array old_par_second
    ∧ run_model_parallel true st p freq_array old_par_second
        = run_model_parallel false st (neg_rinf p) freq_array old_par_second :=
  ⟨rfl, rfl, rfl, rfl⟩

lemma findVal_locked (disabled : List String) (initial : Params) (k : String) (v : ℝ)
    (hk : k ∈ disabled) (hv : findVal initial k = some v) :
    findVal (disabled.filterMap
      (fun x => (findVal initial x).map (fun w => (x, w)))) k = some v := by
  induction disabled with
  | nil => simp at hk
  | cons d ds ih =>
      rw [List.filterMap_cons]
      by_cases hd : d = k
      · subst hd
        rw [hv]
        simp [findVal]
      · have hk₂ : k ∈ ds := by
          rcases List.mem_cons.mp hk with h | h
          · exact absurd h.symm hd
          · exact h
        cases hfd : findVal initial d with
        | none => simpa using ih hk₂
        | some w =>
            simp only [Option.map_some']
            simp only [findVal, if_neg hd]
            exact ih hk₂

lemma findVal_descale_none (keys : List String) (x : List ℝ) (k : String)
    (hk : k ∉ keys) : findVal (descale_params keys x) k = none := by
  apply findVal_eq_none_of_keys
  intro kv hkv
  simp only [descale_params, List.mem_map] at hkv
  obtain ⟨ab, hab, hkv⟩ := hkv
  have : ab.1 ∈ keys := by
    obtain ⟨a, b⟩ := ab
    exact (List.of_mem_zip hab).1
  intro hcontr
  apply hk
  have h₁ : kv.1 = ab.1 := by rw [← hkv]
  rw [← hcontr, h₁]
  exact this

/-- Claim C1 (amended): every key in the disabled set that is present in the
initial parameter set is looked up unchanged from the initial values and
survives the merge with the optimizer output; it is returned exactly as
supplied unless it is the angle-like key `Pei`, which the post-fit
normalization wraps through `((x + 1) mod 4) - 1` even when locked. -/
theorem fit_model_locked_echo (disabled_variables : List String)
    (initial_params : Params) (result_x : List ℝ) (k : String) (v : ℝ)
    (hk : k ∈ disabled_variables) (hv : findVal initial_params k = some v) :
    findVal (fit_model disabled_variables initial_params result_x) k
      = some (if k = "Pei" then pei_wrap v else v) := by
  have hfree : findVal (descale_params ((initial_params.map Prod.fst).filter
      (fun s => !(disabled_variables.contains s))) result_x) k = none := by
    apply findVal_descale_none
    intro hmem
    have h₂ := (List.mem_filter.mp hmem).2
    simp at h₂
    exact h₂ hk
  have hbf : findVal (best_fit_merged disabled_variables initial_params result_x) k
      = some v := by
    simp only [best_fit_merged, dict_union]
    rw [findVal_append_of_none _ hfree]
    exact findVal_locked _ _ _ _ hk hv
  by_cases hpei : k = "Pei"
  · subst hpei
    simp only [fit_model, hbf, Option.isSome_some, if_true]
    rw [dict_set_findVal_self _ hbf]
    simp
  · simp only [fit_model]
    by_cases hg : (findVal (best_fit_merged disabled_variables initial_params result_x)
        "Pei").isSome
    · simp only [hg, if_true]
      rw [dict_set_findVal_other _ hpei, hbf, if_neg hpei]
    · simp only [hg, Bool.false_eq_true, if_false]
      rw [hbf, if_neg hpei]

/-- Counterexample to C1 as stated: a locked `Pei` supplied as 5 is not
echoed back as 5 (it is returned wrapped, as 1). -/
theorem fit_model_locked_pei_counterexample :
    findVal (fit_model ["Pei"] [("Pei", 5)] []) "Pei" ≠ some 5 := by
  have hfloor : ⌊(6 : ℝ) / 4⌋ = 1 := by
    apply Int.floor_eq_iff.mpr
    constructor <;> norm_num
  have hwrap : pei_wrap 5 = 1 := by
    unfold pei_wrap py_mod
    norm_num [hfloor]
  have hchain : fit_model ["Pei"] [("Pei", 5)] [] = [("Pei", pei_wrap 5)] := by
    simp [fit_model, best_fit_merged, dict_union, descale_params, dict_set, findVal]
  rw [hchain, hwrap]
  simp [findVal]

/-- Witness for the amended C1: a locked magnitude key is echoed exactly. -/
theorem fit_model_locked_echo_witness :
    ("Rh" ∈ ["Rh"] ∧ findVal [("Rh", 2)] "Rh" = some 2)
    ∧ findVal (fit_model ["Rh"] [("Rh", 2)] []) "Rh" = some 2 := by
  refine ⟨⟨by simp, by simp [findVal]⟩, ?_⟩
  have h := fit_model_locked_echo ["Rh"] [("Rh", 2)] [] "Rh" 2 (by simp) (by simp [findVal])
  rwa [if_neg (by decide)] at h

/-- Claim C3: whenever the merged post-optimization dictionary binds `Pei`
to `v`, the returned fit binds `Pei` to `pei_wrap v = ((v + 1) mod 4) - 1`,
and for every real `y` the wrapped value lies in `[-1, 3)`. -/
theorem fit_model_pei_wrapped (disabled_variables : List String)
    (initial_params : Params) (result_x : List ℝ) (v : ℝ)
    (h : findVal (best_fit_merged disabled_variables initial_params result_x) "Pei"
          = some v) :
    findVal (fit_model disabled_variables initial_params result_x) "Pei"
      = some (pei_wrap v)
    ∧ ∀ y : ℝ, -1 ≤ pei_wrap y ∧ pei_wrap y < 3 := by
  refine ⟨?_, pei_wrap_mem⟩
  simp only [fit_model, h, Option.isSome_some, if_true, Option.getD_some]
  exact dict_set_findVal_self _ h

/-- Witness for C3: a locked `Pei` of 1/2 reaches the merge and is wrapped. -/
theorem fit_model_pei_wrapped_witness :
    findVal (best_fit_merged ["Pei"] [("Pei", 1 / 2)] []) "Pei" = some (1 / 2)
    ∧ (findVal (fit_model ["Pei"] [("Pei", 1 / 2)] []) "Pei" = some (pei_wrap (1 / 2))
       ∧ ∀ y : ℝ, -1 ≤ pei_wrap y ∧ pei_wrap y < 3) :=
  ⟨by simp [best_fit_merged, dict_union, descale_params, findVal],
   fit_model_pei_wrapped ["Pei"] [("Pei", 1 / 2)] [] (1 / 2)
     (by simp [best_fit_merged, dict_union, descale_params, findVal])⟩

/-- Claim C7: with the Gaussian prior enabled, the invalid-region penalty
appended to the residual vector equals `[max 0 (Fm - Fh), max 0 (Fl - Fm)]`
scaled by `1e4` times the configured (positive) prior weight; it is the zero
vector iff `Fh ≥ Fm ≥ Fl`; and with the Gaussian prior disabled the wrapper
returns the model residual with no penalty appended. -/
theorem invalid_region_penalty (params : Params) (prior_weight fm fh fl : ℝ)
    (hm : findVal params "Fm" = some fm) (hh : findVal params "Fh" = some fh)
    (hl : findVal params "Fl" = some fl) (hw : 0 < prior_weight) :
    compute_invalid_guess_penalty params prior_weight
        = some [max 0 (fm - fh) * 10000 * prior_weight,
                max 0 (fl - fm) * 10000 * prior_weight]
    ∧ (compute_invalid_guess_penalty params prior_weight = some [0, 0]
        ↔ fh ≥ fm ∧ fm ≥ fl)
    ∧ (∀ (residual_func : Params → Except String (List ℝ)) (locked_params : Params)
        (free_keys : List String) (x0 lb ub x_free : List ℝ) (r : List ℝ),
        dict_union locked_params (descale_params free_keys x_free) = params →
        residual_func params = .ok r →
          residual_wrapper residual_func true locked_params free_keys x0 lb ub
              prior_weight x_free
            = .ok (r ++ compute_gaussian_prior x_free x0 lb ub prior_weight ++
                [max 0 (fm - fh) * 10000 * prior_weight,
                 max 0 (fl - fm) * 10000 * prior_weight])
          ∧ residual_wrapper residual_func false locked_params free_keys x0 lb ub
              prior_weight x_free = .ok r) := by
  have hpen : compute_invalid_guess_penalty params prior_weight
      = some [max 0 (fm - fh) * 10000 * prior_weight,
              max 0 (fl - fm) * 10000 * prior_weight] := by
    simp [compute_invalid_guess_penalty, invalid_guess, hm, hh, hl]
  have key : ∀ a : ℝ, a * 10000 * prior_weight = 0 ↔ a = 0 := by
    intro a
    constructor
    · intro h
      rcases mul_eq_zero.mp h with h₁ | h₁
      · rcases mul_eq_zero.mp h₁ with h₂ | h₂
        · exact h₂
        · norm_num at h₂
      · exact absurd h₁ (ne_of_gt hw)
    · intro h
      rw [h]
      ring
  refine ⟨hpen, ?_, ?_⟩
  · rw [hpen]
    constructor
    · intro hz
      have h₁ : max 0 (fm - fh) * 10000 * prior_weight = 0
          ∧ max 0 (fl - fm) * 10000 * prior_weight = 0 := by
        simpa using hz
      have f₁ : fm - fh ≤ 0 := max_eq_left_iff.mp ((key _).mp h₁.1)
      have f₂ : fl - fm ≤ 0 := max_eq_left_iff.mp ((key _).mp h₁.2)
      exact ⟨by linarith, by linarith⟩
    · rintro ⟨h₁, h₂⟩
      have e₁ : max 0 (fm - fh) = 0 := max_eq_left (by linarith)
      have e₂ : max 0 (fl - fm) = 0 := max_eq_left (by linarith)
      rw [e₁, e₂]
      norm_num
  · intro residual_func locked_params free_keys x0 lb ub x_free r hfull hok
    constructor
    · simp [residual_wrapper, hfull, hok, hpen]
    · simp [residual_wrapper, hfull, hok]

/-- Witness for C7: a trial set violating the ordering with unit weight. -/
theorem invalid_region_penalty_witness :
    (findVal [("Fm", 2), ("Fh", 1), ("Fl", 0)] "Fm" = some 2
     ∧ findVal [("Fm", 2), ("Fh", 1), ("Fl", 0)] "Fh" = some 1
     ∧ findVal [("Fm", 2), ("Fh", 1), ("Fl", 0)] "Fl" = some 0
     ∧ (0 : ℝ) < 1)
    ∧ compute_invalid_guess_penalty [("Fm", 2), ("Fh", 1), ("Fl", 0)] 1
        = some [max 0 ((2 : ℝ) - 1) * 10000 * 1, max 0 ((0 : ℝ) - 2) * 10000 * 1] := by
  refine ⟨⟨by simp [findVal], by simp [findVal], by simp [findVal], by norm_num⟩, ?_⟩
  exact (invalid_region_penalty [("Fm", 2), ("Fh", 1), ("Fl", 0)] 1 2 1 0
    (by simp [findVal]) (by simp [findVal]) (by simp [findVal]) (by norm_num)).1

/-- Claim C9: for every list of keys and every parameter mapping assigning
each phase-type key any real value and each magnitude-type key a strictly
positive value, `descale_params` applied to the output of `scale_params`
reproduces the original parameter values exactly (real arithmetic:
`10 ^ log10 v = v` and `(v * 10) / 10 = v`). -/
theorem scale_descale_roundtrip (keys : List String) (params : Params)
    (h : ∀ k ∈ keys, ∃ v, findVal params k = some v
          ∧ (k.startsWith "P" = false → 0 < v)) :
    ∃ xs, scale_params keys params = .ok xs
      ∧ descale_params keys xs = keys.map (fun k => (k, (findVal params k).getD 0)) := by
  induction keys with
  | nil => exact ⟨[], rfl, rfl⟩
  | cons k ks ih =>
      obtain ⟨v, hv, hvpos⟩ := h k (by simp)
      obtain ⟨xs, hxs, hdesc⟩ := ih (fun k₂ hk₂ => h k₂ (by simp [hk₂]))
      by_cases hP : k.startsWith "P"
      · refine ⟨v * 10 :: xs, ?_, ?_⟩
        · simp only [scale_params, hv, hP, if_true, hxs]
          rfl
        · simp only [descale_params, List.zip_cons_cons, List.map_cons] at hdesc ⊢
          rw [hv]
          simp only [hP, if_true, hdesc, Option.getD_some]
          have : v * 10 / 10 = v := by ring
          rw [this]
      · have hvpos₂ : 0 < v := hvpos (by simpa using hP)
        have hnle : ¬v ≤ 0 := not_le.mpr hvpos₂
        refine ⟨Real.logb 10 v :: xs, ?_, ?_⟩
        · simp only [scale_params, hv, hP, Bool.false_eq_true, if_false, hnle, hxs]
          rfl
        · simp only [descale_params, List.zip_cons_cons, List.map_cons] at hdesc ⊢
          rw [hv]
          have hrpow : (10 : ℝ) ^ Real.logb 10 v = v :=
            Real.rpow_logb (by norm_num) (by norm_num) hvpos₂
          simp only [hP, Bool.false_eq_true, if_false, hdesc, Option.getD_some, hrpow]

/-- Witness for C9: a one-key magnitude parameter set round-trips. -/
theorem scale_descale_roundtrip_witness :
    (∀ k ∈ ["Rh"], ∃ v, findVal [("Rh", 1)] k = some v
        ∧ (k.startsWith "P" = false → 0 < v))
    ∧ ∃ xs, scale_params ["Rh"] [("Rh", 1)] = .ok xs
        ∧ descale_params ["Rh"] xs
            = ["Rh"].map (fun k => (k, (findVal [("Rh", 1)] k).getD 0)) := by
  have hhyp : ∀ k ∈ ["Rh"], ∃ v, findVal [("Rh", (1 : ℝ))] k = some v
      ∧ (k.startsWith "P" = false → 0 < v) := by
    intro k hk
    simp only [List.mem_singleton] at hk
    subst hk
    exact ⟨1, by simp [findVal], fun _ => one_pos⟩
  exact ⟨hhyp, scale_descale_roundtrip ["Rh"] [("Rh", 1)] hhyp⟩

lemma getD_map_sub (l : List ℝ) (c : ℝ) (i : ℕ) (hi : i < l.length) :
    (l.map (fun x => c - x)).getD i 0 = c - l.getD i 0 := by
  rw [List.getD_eq_getElem _ _ (by simpa using hi), List.getD_eq_getElem _ _ hi,
    List.getElem_map]

/-- Claim C5: in the pulse derivation the rising response has first sample 0
and sample `k` equal to the sum of the first `k` filtered impulse samples,
and every falling-response sample is the rising response at the looked-up
reference index for time 2 minus the rising response at that sample. -/
theorem pulse_derivation (s : List ℝ) (dt : ℝ) :
    (fourier_transform_pulse s dt).2.2.head? = some 0
    ∧ (∀ k, k < s.length →
        (fourier_transform_pulse s dt).2.2.getD k 0 = (s.take k).sum)
    ∧ (searchsorted_right (fourier_transform_pulse s dt).1 2
          < (fourier_transform_pulse s dt).2.2.length →
        ∀ i, i < (fourier_transform_pulse s dt).2.2.length →
          (fourier_transform_pulse s dt).2.1.getD i 0 =
            (fourier_transform_pulse s dt).2.2.getD
              (searchsorted_right (fourier_transform_pulse s dt).1 2) 0
            - (fourier_transform_pulse s dt).2.2.getD i 0) := by
  refine ⟨rfl, ?_, ?_⟩
  · intro k hk
    show (0 :: (np_cumsum s).dropLast).getD k 0 = (s.take k).sum
    match k with
    | 0 => simp
    | j + 1 =>
        rw [List.getD_cons_succ]
        have hlen : (np_cumsum s).length = s.length := by simp [np_cumsum]
        have hdl : j < (np_cumsum s).dropLast.length := by
          rw [List.length_dropLast, hlen]
          omega
        rw [List.getD_eq_getElem _ _ hdl, List.getElem_dropLast]
        simp [np_cumsum]
  · intro hidx i hi
    exact getD_map_sub ((fourier_transform_pulse s dt).2.2) _ i hi

/-- Witness for C5: the two-sample sequence `[1, 2]` with `dt = 5`. -/
theorem pulse_derivation_witness :
    (1 < ([(1 : ℝ), 2].length)
     ∧ searchsorted_right (fourier_transform_pulse [(1 : ℝ), 2] 5).1 2
          < (fourier_transform_pulse [(1 : ℝ), 2] 5).2.2.length
     ∧ 0 < (fourier_transform_pulse [(1 : ℝ), 2] 5).2.2.length)
    ∧ (fourier_transform_pulse [(1 : ℝ), 2] 5).2.2.getD 1 0 = ([(1 : ℝ), 2].take 1).sum
    ∧ (fourier_transform_pulse [(1 : ℝ), 2] 5).2.1.getD 0 0 =
        (fourier_transform_pulse [(1 : ℝ), 2] 5).2.2.getD
          (searchsorted_right (fourier_transform_pulse [(1 : ℝ), 2] 5).1 2) 0
        - (fourier_transform_pulse [(1 : ℝ), 2] 5).2.2.getD 0 0 := by
  have hlen : (fourier_transform_pulse [(1 : ℝ), 2] 5).2.2.length = 2 := by
    simp [fourier_transform_pulse, np_cumsum]
  have hidx : searchsorted_right (fourier_transform_pulse [(1 : ℝ), 2] 5).1 2 = 1 := by
    have ht : (fourier_transform_pulse [(1 : ℝ), 2] 5).1 = [0 * 5, 1 * 5] := by
      simp [fourier_transform_pulse, List.range_succ]
    rw [ht]
    norm_num [searchsorted_right, List.countP_cons, List.countP_nil]
  refine ⟨⟨by norm_num, by rw [hidx, hlen]; norm_num, by rw [hlen]; norm_num⟩, ?_, ?_⟩
  · exact (pulse_derivation [(1 : ℝ), 2] 5).2.1 1 (by norm_num)
  · exact (pulse_derivation [(1 : ℝ), 2] 5).2.2 (by rw [hidx, hlen]; norm_num) 0
      (by rw [hlen]; norm_num)

/-- Claim C6: `run_time_domain` builds a one-sided grid of `N/2 + 1 = 8193`
points (`N = 2^14`) whose zero-frequency bin is the floor value 0.001, the
rock impedance is evaluated on exactly that grid, and the f = 0 bin of the
resulting impedance array has exactly zero imaginary part before the inverse
real FFT. -/
theorem time_domain_dc_real :
    freq_even_time_domain.length = time_domain_N / 2 + 1
    ∧ freq_even_time_domain.length = 8193
    ∧ freq_even_time_domain.head? = some (1 / 1000)
    ∧ (∀ (run_rock : List ℝ → Except String (List ℂ)) (z0 : ℂ) (rest : List ℂ),
        run_rock freq_even_time_domain = .ok (z0 :: rest) →
          run_time_domain_z run_rock = .ok (((z0.re : ℝ) : ℂ) :: rest)
          ∧ (((z0.re : ℝ) : ℂ)).im = 0) := by
  have hgrid : freq_even_time_domain
      = (linspace 0 ((((time_domain_N / 2 : ℕ) : ℝ)) * (1 / time_domain_T))
          (time_domain_N / 2 + 1)).set 0 (1 / 1000) := rfl
  have hlin : ∀ (a b : ℝ) (n : ℕ), (linspace a b n).length = n := by
    intro a b n
    unfold linspace
    rw [List.length_map, List.length_range]
  have hlen : freq_even_time_domain.length = 8193 := by
    rw [hgrid, List.length_set, hlin]
    norm_num [time_domain_N]
  refine ⟨by rw [hlen]; norm_num [time_domain_N], hlen, ?_, ?_⟩
  · have hset : ∀ (l : List ℝ) (v : ℝ), l ≠ [] → (l.set 0 v).head? = some v := by
      intro l v hl
      cases l with
      | nil => exact absurd rfl hl
      | cons a as => rfl
    rw [hgrid]
    apply hset
    apply List.ne_nil_of_length_pos
    rw [hlin]
    norm_num
  · intro run_rock z0 rest h
    exact ⟨by simp only [run_time_domain_z, h]; rfl, by simp⟩

/-- Witness for C6: a rock oracle returning the single impedance `5 + 7i`. -/
theorem time_domain_dc_real_witness :
    ((fun _ : List ℝ => (Except.ok [(⟨5, 7⟩ : ℂ)] : Except String (List ℂ)))
        freq_even_time_domain = .ok ((⟨5, 7⟩ : ℂ) :: []))
    ∧ run_time_domain_z (fun _ => .ok [(⟨5, 7⟩ : ℂ)])
        = .ok ((((⟨5, 7⟩ : ℂ).re : ℝ) : ℂ) :: [])
    ∧ ((((⟨5, 7⟩ : ℂ).re : ℝ) : ℂ)).im = 0 :=
  ⟨rfl,
   (time_domain_dc_real.2.2.2 (fun _ => .ok [(⟨5, 7⟩ : ℂ)]) ⟨5, 7⟩ [] rfl).1,
   (time_domain_dc_real.2.2.2 (fun _ => .ok [(⟨5, 7⟩ : ℂ)]) ⟨5, 7⟩ [] rfl).2⟩

/-- Claim C10: the manual-evaluation special-frequency computation evaluates
the fixed 0.1 Hz reference point on a copy of the parameters with the
electrode overridden to `Re = 1e8` and `Qe = 1e2`, reports exactly zero
imaginary part for that point regardless of the imaginary part the model
returns, and stores the real part of that no-electrode evaluation as `R01`. -/
theorem special_frequencies_no_electrode
    (run_model : CircuitParams → List ℝ → Bool → Except String (List ℂ × List ℂ))
    (params : CircuitParams) (z0 : ℂ) (rest : List ℂ) (w₁ : List ℂ)
    (ds : List ℂ) (w₂ : List ℂ)
    (h₁ : run_model { params with Re := 100000000, Qe := 100 } [1 / 10] true
          = .ok (z0 :: rest, w₁))
    (h₂ : run_model params [params.Fh, params.Fm, params.Fl] true = .ok (ds, w₂)) :
    calculate_special_frequencies run_model params
      = .ok ([params.Fh, params.Fm, params.Fl] ++ [1 / 10],
             ds.map Complex.re ++ (z0 :: rest).map Complex.re,
             ds.map Complex.im ++ List.replicate (z0 :: rest).length 0,
             z0.re) := by
  simp only [calculate_special_frequencies, h₁, h₂]
  rfl

/-- Witness for C10: an oracle returning the constant impedance `3 + 5i`. -/
theorem special_frequencies_no_electrode_witness :
    ((fun (_ : CircuitParams) (_ : List ℝ) (_ : Bool) =>
        (Except.ok ([(⟨3, 5⟩ : ℂ)], ([] : List ℂ)) : Except String (List ℂ × List ℂ)))
        { (⟨1, 1, 1, 1, 1, 1, 1, 1, 1, 1, 1, 1, 1, 1, 1⟩ : CircuitParams) with
            Re := 100000000, Qe := 100 } [1 / 10] true
      = .ok ((⟨3, 5⟩ : ℂ) :: [], []))
    ∧ calculate_special_frequencies
        (fun _ _ _ => .ok ([(⟨3, 5⟩ : ℂ)], []))
        ⟨1, 1, 1, 1, 1, 1, 1, 1, 1, 1, 1, 1, 1, 1, 1⟩
      = .ok ([(⟨1, 1, 1, 1, 1, 1, 1, 1, 1, 1, 1, 1, 1, 1, 1⟩ : CircuitParams).Fh,
              (⟨1, 1, 1, 1, 1, 1, 1, 1, 1, 1, 1, 1, 1, 1, 1⟩ : CircuitParams).Fm,
              (⟨1, 1, 1, 1, 1, 1, 1, 1, 1, 1, 1, 1, 1, 1, 1⟩ : CircuitParams).Fl] ++ [1 / 10],
             [(⟨3, 5⟩ : ℂ)].map Complex.re ++ ((⟨3, 5⟩ : ℂ) :: []).map Complex.re,
             [(⟨3, 5⟩ : ℂ)].map Complex.im
               ++ List.replicate ((⟨3, 5⟩ : ℂ) :: []).length 0,
             (⟨3, 5⟩ : ℂ).re) :=
  ⟨rfl,
   special_frequencies_no_electrode (fun _ _ _ => .ok ([(⟨3, 5⟩ : ℂ)], []))
     ⟨1, 1, 1, 1, 1, 1, 1, 1, 1, 1, 1, 1, 1, 1, 1⟩ ⟨3, 5⟩ [] [] [(⟨3, 5⟩ : ℂ)] [] rfl rfl⟩
